import Mathlib

/-!
Verification of the ZoKrates IR backend fragment: the redefinition optimizer
(`src/zokrates_core/src/optimizer/redefinition.rs`), the unconstrained-variable
detector (`src/zokrates_core/src/static_analysis/unconstrained_vars.rs`) and the
embedded gadget synthesizers (`src/zokrates_core/src/embed.rs`).

The `ir` data model (`LinComb`, `QuadComb`, `Statement`, `Prog`, the folder and
visitor traversals), the `flat_absy` data model and the solver interpreter live
in modules of the repository that are not part of the provided sources; those
definitions are modelled from the specification (spec.md sections 3, 4.2, 4.4,
4.5) and are marked `Modelled from the spec:` in their doc comments.  Field
arithmetic is over `ZMod p` for a parameter `p`; the concrete scenarios use the
Bn128 scalar-field modulus, matching the `Bn128Field` used by the unit tests.
-/

set_option maxRecDepth 100000

namespace ZK

/-- Modulus of the Bn128 scalar field (the field of `Bn128Field` /
`FieldPrime` used throughout the repository's tests). -/
def bn : ℕ := 21888242871839275222246405745257275088548364400416034343698204186575808495617

/-- Field elements. The source is generic over `T: Field`; we are generic over
the modulus `p`. -/
abbrev F (p : ℕ) := ZMod p

/-- Modelled from the spec: `FlatVariable` (from `flat_absy::flat_variable`,
not among the provided sources).  A variable is identified by an integer id:
the distinguished `~one` variable has id 0, `FlatVariable::new(i)` yields the
(i+1)-st non-negative id, and `FlatVariable::public(i)` (used for the public
output variables `~out_i`) yields a negative id, so the three families are
disjoint.  The spec fixes only that variables are integer identifiers with
`ONE` distinguished. -/
abbrev Var := Int

/-- The distinguished `~one` variable (`FlatVariable::one()`). -/
def vOne : Var := 0

/-- The variable `FlatVariable::new(i)`. -/
def vNew (i : ℕ) : Var := (i : Int) + 1

/-- The public output variable `FlatVariable::public(i)` (`~out_i`). -/
def vPub (i : ℕ) : Var := -((i : Int) + 1)

/-- Modelled from the spec: `LinComb` is an ordered sequence of
`(variable, coefficient)` terms (`ir::LinComb`, a newtype over a vector of
pairs, as also visible from `lin.0[0].0` in `redefinition.rs`). -/
abbrev LinComb (p : ℕ) := List (Var × F p)

/-- Modelled from the spec: `QuadComb` is a pair of linear combinations
denoting their product. -/
structure QuadComb (p : ℕ) where
  left : LinComb p
  right : LinComb p

instance (p : ℕ) : DecidableEq (QuadComb p) := fun a b =>
  decidable_of_iff (a.left = b.left ∧ a.right = b.right)
    (by cases a; cases b; simp)

/-- The solver enumeration (`solvers::Solver`); the variants used by the
claims. -/
inductive Solver where
  | Bits : ℕ → Solver
  | Sha256Round : Solver
  | ConditionEq : Solver

instance : DecidableEq Solver := fun a b =>
  match a, b with
  | .Bits w1, .Bits w2 => decidable_of_iff (w1 = w2) (by simp)
  | .Bits _, .Sha256Round => isFalse (by simp)
  | .Bits _, .ConditionEq => isFalse (by simp)
  | .Sha256Round, .Bits _ => isFalse (by simp)
  | .Sha256Round, .Sha256Round => isTrue rfl
  | .Sha256Round, .ConditionEq => isFalse (by simp)
  | .ConditionEq, .Bits _ => isFalse (by simp)
  | .ConditionEq, .Sha256Round => isFalse (by simp)
  | .ConditionEq, .ConditionEq => isTrue rfl

/-- Modelled from the spec: an IR directive: a non-deterministic assignment of
`solver(inputs)` to `outputs`. -/
structure Directive (p : ℕ) where
  inputs : List (QuadComb p)
  outputs : List Var
  solver : Solver

instance (p : ℕ) : DecidableEq (Directive p) := fun a b =>
  decidable_of_iff (a.inputs = b.inputs ∧ a.outputs = b.outputs ∧ a.solver = b.solver)
    (by cases a; cases b; simp)

/-- Modelled from the spec: an IR statement: a constraint `q == l` (with an
optional message) or a directive. -/
inductive Stmt (p : ℕ) where
  | constraint : QuadComb p → LinComb p → Option String → Stmt p
  | directive : Directive p → Stmt p

instance (p : ℕ) : DecidableEq (Stmt p) := fun a b =>
  match a, b with
  | .constraint q1 l1 m1, .constraint q2 l2 m2 =>
    decidable_of_iff (q1 = q2 ∧ l1 = l2 ∧ m1 = m2) (by simp)
  | .constraint _ _ _, .directive _ => isFalse (by simp)
  | .directive _, .constraint _ _ _ => isFalse (by simp)
  | .directive d1, .directive d2 => decidable_of_iff (d1 = d2) (by simp)

/-- Modelled from the spec: a function parameter `{ id, private }`
(`flat_absy::FlatParameter`); `priv` stands for the Rust field `private`,
which is a reserved word in Lean. -/
structure FlatParameter where
  id : Var
  priv : Bool

instance : DecidableEq FlatParameter := fun a b =>
  decidable_of_iff (a.id = b.id ∧ a.priv = b.priv)
    (by cases a; cases b; simp)

/-- Modelled from the spec: the IR program shape used by the optimizer and the
analyzer (`ir::Prog` as exercised by the unit tests of `redefinition.rs` and
`unconstrained_vars.rs`): arguments, statements and return variables. -/
structure Prog (p : ℕ) where
  arguments : List FlatParameter
  statements : List (Stmt p)
  returns : List Var

instance (p : ℕ) : DecidableEq (Prog p) := fun a b =>
  decidable_of_iff
    (a.arguments = b.arguments ∧ a.statements = b.statements ∧ a.returns = b.returns)
    (by cases a; cases b; simp)

/-! ### IR algebra (spec section 4.2) -/

/-- `LinComb::summand(coefficient, variable)`: the single-term combination. -/
def summand (p : ℕ) (c : F p) (v : Var) : LinComb p := [(v, c)]

/-- Scalar multiplication of a linear combination (`LinComb * &scalar`). -/
def smulLin (p : ℕ) (l : LinComb p) (k : F p) : LinComb p :=
  l.map fun t => (t.1, t.2 * k)

/-- The constant combination `c * ~one` (`LinComb::from(value)`). -/
def constLin (p : ℕ) (c : F p) : LinComb p := summand p c vOne

/-- The combination `1 * ~one` (`LinComb::one()`). -/
def oneLin (p : ℕ) : LinComb p := summand p 1 vOne

/-- `QuadComb::from(lincomb)`: multiply by `1 * ~one`. -/
def quadOfLin (p : ℕ) (l : LinComb p) : QuadComb p := ⟨oneLin p, l⟩

/-- Insert a term with nonzero coefficient `c` into a canonical (sorted,
zero-free) term list, merging coefficients and dropping a term whose merged
coefficient vanishes (the `BTreeMap` accumulation of `into_canonical`). -/
def insertTerm (p : ℕ) (v : Var) (c : F p) : LinComb p → LinComb p
  | [] => [(v, c)]
  | (w, d) :: rest =>
    if v = w then
      if d + c = 0 then rest else (w, d + c) :: rest
    else if v < w then (v, c) :: (w, d) :: rest
    else (w, d) :: insertTerm p v c rest

/-- Modelled from the spec: `into_canonical` / `reduce`: group terms by
variable (ascending id), sum the coefficients, and drop zero-coefficient
terms.  A `CanonicalLinComb` is represented as the sorted zero-free term
list it enumerates to. -/
def canon (p : ℕ) (l : LinComb p) : LinComb p :=
  l.foldl (fun acc t => if t.2 = 0 then acc else insertTerm p t.1 t.2 acc) []

/-- The case analysis of `try_constant` on a canonical term list (`l0` is the
original combination returned on failure). -/
def constOfCanon (p : ℕ) (l0 : LinComb p) : LinComb p → Except (LinComb p) (F p)
  | [] => .ok 0
  | [(v, c)] => if v = vOne then .ok c else .error l0
  | _ => .error l0

/-- Modelled from the spec: `LinComb::try_constant()` succeeds iff the
canonical form contains only the `~one` term (the canonical form of zero
counts as the constant 0). -/
def tryConstant (p : ℕ) (l : LinComb p) : Except (LinComb p) (F p) :=
  constOfCanon p l (canon p l)

/-- The case analysis of `try_summand` on a canonical term list. -/
def summandOfCanon (p : ℕ) (l0 : LinComb p) :
    LinComb p → Except (LinComb p) (Var × F p)
  | [(v, c)] => if v = vOne then .error l0 else .ok (v, c)
  | _ => .error l0

/-- Modelled from the spec: `LinComb::try_summand()` succeeds iff the
canonical form has exactly one term and it is not the `~one` term. -/
def trySummand (p : ℕ) (l : LinComb p) : Except (LinComb p) (Var × F p) :=
  summandOfCanon p l (canon p l)

/-- Modelled from the spec: `QuadComb::try_linear()` succeeds iff one factor
reduces to a constant scalar; the result is the other factor scaled by that
scalar. -/
def tryLinear (p : ℕ) (q : QuadComb p) : Except (QuadComb p) (LinComb p) :=
  match tryConstant p q.left with
  | .ok c => .ok (smulLin p q.right c)
  | .error _ =>
    match tryConstant p q.right with
    | .ok c => .ok (smulLin p q.left c)
    | .error _ => .error q

/-- Square-and-multiply exponentiation in `F p`, with explicit structural
fuel so that the kernel can evaluate it. -/
def powModAux (p : ℕ) : ℕ → F p → ℕ → F p
  | 0, _, _ => 1
  | fuel + 1, a, n =>
    if n = 0 then 1
    else
      let h := powModAux p fuel a (n / 2)
      if n % 2 = 1 then h * h * a else h * h

/-- Modelled from the spec: field inversion (`Field` requires `inverse`),
computed by Fermat for a prime modulus; `finv p 0 = 0`. -/
def finv (p : ℕ) (a : F p) : F p := powModAux p p a (p - 2)

/-- Modelled from the spec: division of a `LinComb` by a scalar distributes
the field inverse over the coefficients (`LinComb / &scalar`). -/
def divByScalar (p : ℕ) (l : LinComb p) (k : F p) : LinComb p :=
  smulLin p l (finv p k)

/-- Modelled from the spec: `QuadComb::reduce()`, reducing both factors to
canonical form (needed "to interpret `a + 1 - a` as `1`"). -/
def quadReduce (p : ℕ) (q : QuadComb p) : QuadComb p :=
  ⟨canon p q.left, canon p q.right⟩

/-! ### Solver execution -/

/-- Modelled from the spec: `Interpreter::execute_solver` for the solvers a
directive can carry.  `Bits w` decomposes its input into `w` bits with the
high bit first; `ConditionEq` returns `(isZero, inv)`.  The value-level
behaviour of `Sha256Round` (an entire SHA-256 compression round) is outside
the modelled fragment; it is never executed by any program considered here. -/
def execSolver (p : ℕ) : Solver → List (F p) → List (F p)
  | .Bits w, ins =>
    let x := (ins.headD 0).val
    (List.range w).map fun i => (((x >>> (w - 1 - i)) % 2 : ℕ) : F p)
  | .ConditionEq, ins =>
    let x := ins.headD 0
    [if x = 0 then 1 else 0, if x = 0 then 0 else finv p x]
  | .Sha256Round, _ => []

/-! ### The redefinition optimizer (`redefinition.rs`) -/

/-- The optimizer state: the substitution map (variable to canonical linear
combination) and the ignored-variable set, both represented as lists. -/
structure OptState (p : ℕ) where
  substitution : List (Var × LinComb p)
  ignore : List Var

/-- Association-list lookup for the substitution map. -/
def alookup (p : ℕ) : List (Var × LinComb p) → Var → Option (LinComb p)
  | [], _ => none
  | (w, l) :: rest, v => if v = w then some l else alookup p rest v

/-- `fold_linear_combination`: if any variable of `lc` has a substitution,
rebuild the combination by replacing each summand `(v, c)` with
`substitution[v] * c` when present (and `c * v` otherwise), summing with
list concatenation from zero; otherwise return `lc` unchanged. -/
def substLin (p : ℕ) (s : List (Var × LinComb p)) (l : LinComb p) : LinComb p :=
  if l.any fun t => (alookup p s t.1).isSome then
    l.foldl
      (fun acc t =>
        acc ++
          match alookup p s t.1 with
          | some cl => smulLin p cl t.2
          | none => summand p t.2 t.1)
      []
  else l

/-- The default `fold_quadratic_combination`: fold both factors. -/
def substQuad (p : ℕ) (s : List (Var × LinComb p)) (q : QuadComb p) : QuadComb p :=
  ⟨substLin p s q.left, substLin p s q.right⟩

/-- The first variable `lin.0[0].0` of a (nonempty) linear combination. -/
def headVar (p : ℕ) (l : LinComb p) : Var :=
  match l with
  | [] => vOne
  | t :: _ => t.1

/-- `try_constant` after `try_linear`, as performed on each directive input:
`q.try_linear().map(|l| l.try_constant().map_err(|l| l.into()))` flattened. -/
def tryQuadConst (p : ℕ) (q : QuadComb p) : Except (QuadComb p) (F p) :=
  match tryLinear p q with
  | .ok l =>
    match tryConstant p l with
    | .ok c => .ok c
    | .error l2 => .error (quadOfLin p l2)
  | .error q2 => .error q2

/-- `RedefinitionOptimizer::fold_statement`.  Constraints: fold both sides,
keep constraints whose folded right-hand side is zero (`is_zero` is
modelled as the term list being empty, which is what makes the subsequent
`lin.0[0]` indexing of the source safe), keep constraints whose first
right-hand-side variable is ignored or already substituted, record a
substitution (dropping the constraint) when the right side is a single fresh
variable and the left side is linear, re-emit and ignore the variable when
the left side is a genuine quadratic, and otherwise keep the folded
constraint.  Directives: fold and reduce the inputs; if all reduce to scalar
constants, run the solver and record the outputs in the substitution map,
emitting nothing (the Rust unwraps the solver result and asserts the output
arity, which holds for the solvers modelled here); otherwise re-emit the
directive with reconstructed inputs and ignore its outputs. -/
def foldStmt (p : ℕ) (s : OptState p) : Stmt p → List (Stmt p) × OptState p
  | .constraint quad0 lin0 msg =>
    let quad := substQuad p s.substitution quad0
    let lin := substLin p s.substitution lin0
    if lin.isEmpty then ([.constraint quad lin msg], s)
    else if headVar p lin ∈ s.ignore ∨ (alookup p s.substitution (headVar p lin)).isSome then
      ([.constraint quad lin msg], s)
    else
      match trySummand p lin with
      | .ok vc =>
        match tryLinear p quad with
        | .ok l =>
          ([], { s with substitution := (vc.1, canon p (divByScalar p l vc.2)) :: s.substitution })
        | .error q2 =>
          ([.constraint q2 (summand p vc.2 vc.1) msg], { s with ignore := vc.1 :: s.ignore })
      | .error l2 => ([.constraint quad l2 msg], s)
  | .directive d =>
    let d1 : Directive p := { d with inputs := d.inputs.map (substQuad p s.substitution) }
    let consts := (d1.inputs.map (quadReduce p)).map (tryQuadConst p)
    if consts.all fun r => r.toOption.isSome then
      let cs := consts.filterMap (·.toOption)
      let outs := execSolver p d1.solver cs
      ([],
        { s with
          substitution :=
            (d1.outputs.zip (outs.map fun c => canon p (constLin p c))).foldl
              (fun acc kv => kv :: acc) s.substitution })
    else
      let inputs2 := consts.map fun r =>
        match r with
        | .ok c => quadOfLin p (summand p c vOne)
        | .error q => q
      ([.directive { d1 with inputs := inputs2 }],
        { s with ignore := d1.outputs.foldl (fun acc o => o :: acc) s.ignore })

/-- Fold a list of statements in program order, threading the state. -/
def foldStmts (p : ℕ) (s : OptState p) : List (Stmt p) → List (Stmt p) × OptState p
  | [] => ([], s)
  | st :: rest =>
    let r := foldStmt p s st
    let r2 := foldStmts p r.2 rest
    (r.1 ++ r2.1, r2.2)

/-- The state seeded by `fold_module` and `fold_argument` before the
statements are traversed: the return variables, `~one` and every argument id
are inserted into the ignored set; the substitution map starts empty. -/
def initState (p : ℕ) (P : Prog p) : OptState p :=
  { substitution := [],
    ignore := P.arguments.map (·.id) ++ vOne :: P.returns }

/-- `RedefinitionOptimizer::optimize` together with the final optimizer
state (arguments and returns are mapped identically by the folder). -/
def optimizeState (p : ℕ) (P : Prog p) : Prog p × OptState p :=
  let r := foldStmts p (initState p P) P.statements
  ({ arguments := P.arguments, statements := r.1, returns := P.returns }, r.2)

/-- `RedefinitionOptimizer::optimize`. -/
def optimize (p : ℕ) (P : Prog p) : Prog p := (optimizeState p P).1

/-! ### The unconstrained-variable detector (`unconstrained_vars.rs`) -/

/-- The variables of a linear combination, in visiting order. -/
def linVars (p : ℕ) (l : LinComb p) : List Var := l.map (·.1)

/-- The variables visited inside a constraint (both factors of the quadratic
combination, then the linear side). -/
def constraintVars (p : ℕ) (q : QuadComb p) (l : LinComb p) : List Var :=
  linVars p q.left ++ linVars p q.right ++ linVars p l

/-- Modelled from the spec: the statement traversal of
`UnconstrainedVariableDetector` (the `ir::visitor` default traversal is not
among the provided sources).  In statement order: a constraint removes every
variable it uses from the suspect set; a directive adds its output variables
to the suspect set. -/
def detectFold (p : ℕ) : Finset Var → List (Stmt p) → Finset Var
  | S, [] => S
  | S, .constraint q l _ :: rest =>
    detectFold p (S \ (constraintVars p q l).toFinset) rest
  | S, .directive d :: rest =>
    detectFold p (S ∪ d.outputs.toFinset) rest

/-- The ids of the private arguments (`visit_argument` inserts exactly the
private parameters). -/
def privateArgs (p : ℕ) (P : Prog p) : Finset Var :=
  ((P.arguments.filter (·.priv)).map (·.id)).toFinset

/-- `UnconstrainedVariableDetector::detect`: visit the arguments, then the
statements; succeed iff no suspect variable remains, otherwise report the
number of remaining suspects. -/
def detect (p : ℕ) (P : Prog p) : Except ℕ Unit :=
  let final := detectFold p (privateArgs p P) P.statements
  if final = ∅ then .ok () else .error final.card

instance {ε α : Type} [DecidableEq ε] [DecidableEq α] : DecidableEq (Except ε α) :=
  fun a b =>
    match a, b with
    | .ok x, .ok y => decidable_of_iff (x = y) (by simp)
    | .ok _, .error _ => isFalse (by simp)
    | .error _, .ok _ => isFalse (by simp)
    | .error x, .error y => decidable_of_iff (x = y) (by simp)

/-- The rendered `Display` message of the detector error. -/
def errorMessage (n : ℕ) : String :=
  "Found unconstrained variables during IR analysis (found " ++ toString n ++
    " occurrence" ++ (if n = 1 then "" else "s") ++ ")"

/-! ### The flat layer and the embedded gadgets (`embed.rs`) -/

/-- The fragment of `flat_absy::FlatExpression` used by `embed.rs`. -/
inductive FlatExpression (p : ℕ) where
  | Number : F p → FlatExpression p
  | Identifier : Var → FlatExpression p
  | Add : FlatExpression p → FlatExpression p → FlatExpression p
  | Mult : FlatExpression p → FlatExpression p → FlatExpression p

/-- Structural decidable equality for flat expressions. -/
def decEqFlatExpression (p : ℕ) : (a b : FlatExpression p) → Decidable (a = b)
  | .Number x, .Number y => decidable_of_iff (x = y) (by simp)
  | .Number _, .Identifier _ => isFalse (by simp)
  | .Number _, .Add _ _ => isFalse (by simp)
  | .Number _, .Mult _ _ => isFalse (by simp)
  | .Identifier _, .Number _ => isFalse (by simp)
  | .Identifier x, .Identifier y => decidable_of_iff (x = y) (by simp)
  | .Identifier _, .Add _ _ => isFalse (by simp)
  | .Identifier _, .Mult _ _ => isFalse (by simp)
  | .Add _ _, .Number _ => isFalse (by simp)
  | .Add _ _, .Identifier _ => isFalse (by simp)
  | .Add a1 a2, .Add b1 b2 =>
    haveI h1 := decEqFlatExpression p a1 b1
    haveI h2 := decEqFlatExpression p a2 b2
    decidable_of_iff (a1 = b1 ∧ a2 = b2) (by simp)
  | .Add _ _, .Mult _ _ => isFalse (by simp)
  | .Mult _ _, .Number _ => isFalse (by simp)
  | .Mult _ _, .Identifier _ => isFalse (by simp)
  | .Mult _ _, .Add _ _ => isFalse (by simp)
  | .Mult a1 a2, .Mult b1 b2 =>
    haveI h1 := decEqFlatExpression p a1 b1
    haveI h2 := decEqFlatExpression p a2 b2
    decidable_of_iff (a1 = b1 ∧ a2 = b2) (by simp)

instance (p : ℕ) : DecidableEq (FlatExpression p) := decEqFlatExpression p

/-- `flat_absy::FlatDirective`. -/
structure FlatDirective (p : ℕ) where
  outputs : List Var
  inputs : List (FlatExpression p)
  solver : Solver

instance (p : ℕ) : DecidableEq (FlatDirective p) := fun a b =>
  decidable_of_iff (a.outputs = b.outputs ∧ a.inputs = b.inputs ∧ a.solver = b.solver)
    (by cases a; cases b; simp)

/-- The fragment of `flat_absy::FlatStatement` used by `embed.rs`
(`Condition` asserts equality of its two expressions; `Return` carries the
expressions of a `FlatExpressionList`). -/
inductive FlatStatement (p : ℕ) where
  | Condition : FlatExpression p → FlatExpression p → FlatStatement p
  | Directive : FlatDirective p → FlatStatement p
  | Return : List (FlatExpression p) → FlatStatement p

instance (p : ℕ) : DecidableEq (FlatStatement p) := fun a b =>
  match a, b with
  | .Condition x1 y1, .Condition x2 y2 =>
    decidable_of_iff (x1 = x2 ∧ y1 = y2) (by simp)
  | .Condition _ _, .Directive _ => isFalse (by simp)
  | .Condition _ _, .Return _ => isFalse (by simp)
  | .Directive _, .Condition _ _ => isFalse (by simp)
  | .Directive d1, .Directive d2 => decidable_of_iff (d1 = d2) (by simp)
  | .Directive _, .Return _ => isFalse (by simp)
  | .Return _, .Condition _ _ => isFalse (by simp)
  | .Return _, .Directive _ => isFalse (by simp)
  | .Return r1, .Return r2 => decidable_of_iff (r1 = r2) (by simp)

/-- `flat_absy::FlatFunction`. -/
structure FlatFunction (p : ℕ) where
  arguments : List FlatParameter
  statements : List (FlatStatement p)

instance (p : ℕ) : DecidableEq (FlatFunction p) := fun a b =>
  decidable_of_iff (a.arguments = b.arguments ∧ a.statements = b.statements)
    (by cases a; cases b; simp)

/-- `flat_expression_from_vec`: convert an R1CS coefficient row (a vector of
`(variable_id, coefficient)` pairs) into a flat expression: map each pair to
`Mult(Number coefficient, Identifier (new id))`, sum with left-nested `Add`,
wrap a lone `Mult` as `Add(Number 0, Mult ...)` (the R1CS serializer only
recognizes `Add`), and yield `Number 0` for an empty row. -/
def flatExprFromVec (p : ℕ) (v : List (ℕ × F p)) : FlatExpression p :=
  match v.map fun t =>
      FlatExpression.Mult (.Number t.2) (.Identifier (vNew t.1)) with
  | [] => .Number 0
  | e :: es =>
    match es.foldl FlatExpression.Add e with
    | .Mult a b => .Add (.Number 0) (.Mult a b)
    | e2 => e2

/-- An R1CS constraint from the bellman gadget generator: the coefficient
rows `a`, `b`, `c` of `⟨a,w⟩·⟨b,w⟩ = ⟨c,w⟩`. -/
structure BellmanConstraint (p : ℕ) where
  a : List (ℕ × F p)
  b : List (ℕ × F p)
  c : List (ℕ × F p)

/-- The `From<BellmanConstraint> for FlatStatement` conversion:
`Condition(c, Mult(a, b))` via `flat_expression_from_vec`. -/
def bellmanStmt (p : ℕ) (c : BellmanConstraint p) : FlatStatement p :=
  .Condition (flatExprFromVec p c.c)
    (.Mult (flatExprFromVec p c.a) (flatExprFromVec p c.b))

/-- Modelled from the spec: the data returned by
`generate_sha256_round_constraints` (the external `zokrates_embed` gadget
generator, not among the provided sources): the R1CS constraints, the
auxiliary-variable count, and the constraint-system indices of the 512
message-schedule input bits, the 256 current-hash bits and the 256 output
bits.  Index 0 of the constraint system is `ONE`; the generator allocates
the input bits from index 1 upwards (as witnessed by the unit test in
`embed.rs`, which binds cs index 1 to the first function argument). -/
structure Sha256RoundData (p : ℕ) where
  constraints : List (BellmanConstraint p)
  auxCount : ℕ
  inputIndices : List ℕ
  currentHashIndices : List ℕ
  outputIndices : List ℕ

/-- `sha256_round`, parameterized by the generator data: the constraint
system's native variables occupy `FlatVariable::new` indices
`[0, aux_count + 1)`; the function arguments are the generator's input
indices offset by `variable_count = aux_count + 1`; the statements are the
witness directive, the binding of variable 0 to the constant 1, one binding
constraint per input, the translated R1CS constraints, and the return of the
output subset. -/
def sha256Round (p : ℕ) (g : Sha256RoundData p) : FlatFunction p :=
  let variableCount := g.auxCount + 1
  let inputArgumentIndices := g.inputIndices.map (· + variableCount)
  let currentHashArgumentIndices := g.currentHashIndices.map (· + variableCount)
  let arguments : List FlatParameter :=
    (inputArgumentIndices ++ currentHashArgumentIndices).map fun i => ⟨vNew i, true⟩
  let oneBindingStatement : FlatStatement p :=
    .Condition (.Identifier (vNew 0)) (.Number 1)
  let inputBindingStatements : List (FlatStatement p) :=
    ((g.inputIndices ++ g.currentHashIndices).zip
        (inputArgumentIndices ++ currentHashArgumentIndices)).map fun t =>
      .Condition (.Identifier (vNew t.1)) (.Identifier (vNew t.2))
  let constraintStatements := g.constraints.map (bellmanStmt p)
  let outputs := g.outputIndices.map fun o => FlatExpression.Identifier (vNew o)
  let directiveStatement : FlatStatement p :=
    .Directive
      { outputs := (List.range variableCount).map vNew,
        inputs :=
          (inputArgumentIndices ++ currentHashArgumentIndices).map fun i =>
            .Identifier (vNew i),
        solver := .Sha256Round }
  let returnStatement : FlatStatement p := .Return outputs
  { arguments := arguments,
    statements :=
      directiveStatement :: oneBindingStatement ::
        (inputBindingStatements ++ constraintStatements ++ [returnStatement]) }

/-- `unpack_to_bitwidth(width)`: the bit-decomposition gadget.  The Rust
asserts `width <= T::get_required_bits()`; the name-keyed layout map has no
semantic role (spec section 9) and variable allocation is by the counter
alone: the argument `i0` is `FlatVariable::new(0)` and the output bit
`o_index` is `FlatVariable::new(index + 1)`.  `Vec::insert(0, d)` prepends
the directive. -/
def unpackToBitwidth (p : ℕ) (width : ℕ) : FlatFunction p :=
  let arguments : List FlatParameter := [⟨vNew 0, true⟩]
  let directiveInputs : List (FlatExpression p) := [.Identifier (vNew 0)]
  let directiveOutputs : List Var := (List.range width).map fun i => vNew (i + 1)
  let solver := Solver.Bits width
  let outputs := directiveOutputs.map FlatExpression.Identifier
  let bitStatements : List (FlatStatement p) :=
    (List.range width).map fun i =>
      let bit : FlatExpression p := .Identifier (vNew (width - i))
      .Condition bit (.Mult bit bit)
  let lhsSum : FlatExpression p :=
    (List.range width).foldl
      (fun acc i =>
        .Add acc (.Mult (.Identifier (vNew (width - i))) (.Number (2 ^ i))))
      (.Number 0)
  let statements :=
    bitStatements ++
      [.Condition lhsSum (.Mult (.Identifier (vNew 0)) (.Number 1))]
  let statements :=
    FlatStatement.Directive ⟨directiveOutputs, directiveInputs, solver⟩ :: statements
  { arguments := arguments, statements := statements ++ [.Return outputs] }

/-- The statement shape that claim C6 ascribes to `unpack_to_bitwidth(w)`,
written directly from the specification text: first the
`Directive(inputs=[x], outputs=[o_1..o_w], solver=Bits(w))` where `x` is
variable 0 and `o_i` is variable `i`; then one booleanity constraint
`o_i · o_i = o_i` per bit; then the weighted-sum constraint
`Σ_{i=0..w-1} o_{w−i} · 2^i = x · 1`; and finally the return of
`o_1 … o_w` in order. -/
def unpackSpecShape (p : ℕ) (width : ℕ) : FlatFunction p :=
  { arguments := [⟨vNew 0, true⟩],
    statements :=
      FlatStatement.Directive
          ⟨(List.range width).map fun i => vNew (i + 1),
            [.Identifier (vNew 0)], .Bits width⟩ ::
        ((List.range width).map fun i =>
          FlatStatement.Condition (.Identifier (vNew (width - i)))
            (.Mult (.Identifier (vNew (width - i))) (.Identifier (vNew (width - i))))) ++
        [ .Condition
            ((List.range width).foldl
              (fun acc i =>
                .Add acc (.Mult (.Identifier (vNew (width - i))) (.Number (2 ^ i))))
              (.Number 0))
            (.Mult (.Identifier (vNew 0)) (.Number 1)),
          .Return ((List.range width).map fun i => .Identifier (vNew (i + 1))) ] }

/-! ### Witness semantics

Modelled from the spec: a satisfying assignment (witness) of an IR program
is an assignment of field elements to variables under which `ONE` equals 1
and every constraint `q == l` holds; directives are non-deterministic
witness population and "do not constrain" (spec sections 3 and the
glossary). -/

/-- The value of a linear combination under an assignment. -/
def evalLin (p : ℕ) (w : Var → F p) (l : LinComb p) : F p :=
  (l.map fun t => t.2 * w t.1).sum

/-- The value of a quadratic combination under an assignment. -/
def evalQuad (p : ℕ) (w : Var → F p) (q : QuadComb p) : F p :=
  evalLin p w q.left * evalLin p w q.right

/-- Satisfaction of one statement: a constraint asserts equality of its two
sides; a directive does not constrain. -/
def satStmt (p : ℕ) (w : Var → F p) : Stmt p → Prop
  | .constraint q l _ => evalQuad p w q = evalLin p w l
  | .directive _ => True

instance (p : ℕ) (w : Var → F p) (st : Stmt p) : Decidable (satStmt p w st) := by
  cases st <;> simp only [satStmt] <;> infer_instance

/-- A witness of a program: `ONE` carries the value 1 and every constraint
holds. -/
def Satisfies (p : ℕ) (w : Var → F p) (P : Prog p) : Prop :=
  w vOne = 1 ∧ ∀ st ∈ P.statements, satStmt p w st

instance (p : ℕ) (w : Var → F p) (P : Prog p) : Decidable (Satisfies p w P) := by
  unfold Satisfies
  infer_instance

/-- The argument and return variables of a program. -/
def ioVars (p : ℕ) (P : Prog p) : List Var :=
  P.arguments.map (·.id) ++ P.returns

/-- Whether a statement is a directive. -/
def isDirStmt (p : ℕ) : Stmt p → Bool
  | .directive _ => true
  | .constraint _ _ _ => false

/-- A program with no directive statements. -/
def DirectiveFree (p : ℕ) (P : Prog p) : Prop :=
  ∀ st ∈ P.statements, isDirStmt p st = false

instance (p : ℕ) (P : Prog p) : Decidable (DirectiveFree p P) := by
  unfold DirectiveFree
  infer_instance

/-- Correctness of a substitution map with respect to an assignment: every
recorded entry is an equality that the assignment satisfies. -/
def GoodSubst (p : ℕ) (w : Var → F p) (s : List (Var × LinComb p)) : Prop :=
  ∀ v l, alookup p s v = some l → w v = evalLin p w l

/-! ### Concrete scenario programs -/

/-- The statement `Statement::definition(v, e)`, i.e.
`Constraint(e.into(), v.into(), None)`. -/
def defn (p : ℕ) (v : Var) (l : LinComb p) : Stmt p :=
  .constraint (quadOfLin p l) (summand p 1 v) none

/-- Scenario F (`substitute_lincomb`): arguments `[x, y]`; `a := x+y`;
`b := a+x+y`; `c := b+x+y`; `2·c == 6x+6y`; `r := a+b+c`; returns `[r]`. -/
def progF : Prog bn :=
  { arguments := [⟨vNew 0, false⟩, ⟨vNew 1, false⟩],
    statements :=
      [ defn bn (vNew 2) (summand bn 1 (vNew 0) ++ summand bn 1 (vNew 1)),
        defn bn (vNew 3)
          (summand bn 1 (vNew 2) ++ summand bn 1 (vNew 0) ++ summand bn 1 (vNew 1)),
        defn bn (vNew 4)
          (summand bn 1 (vNew 3) ++ summand bn 1 (vNew 0) ++ summand bn 1 (vNew 1)),
        .constraint (quadOfLin bn (summand bn 2 (vNew 4)))
          (summand bn 6 (vNew 0) ++ summand bn 6 (vNew 1)) none,
        defn bn (vNew 5)
          (summand bn 1 (vNew 2) ++ summand bn 1 (vNew 3) ++ summand bn 1 (vNew 4)) ],
    returns := [vNew 5] }

/-- The optimized form of Scenario F: the tautological constraint
`6x+6y == 6x+6y` followed by `r := x+y + 2x+2y + 3x+3y`. -/
def expectedProgF : Prog bn :=
  { arguments := [⟨vNew 0, false⟩, ⟨vNew 1, false⟩],
    statements :=
      [ .constraint (quadOfLin bn (summand bn 6 (vNew 0) ++ summand bn 6 (vNew 1)))
          (summand bn 6 (vNew 0) ++ summand bn 6 (vNew 1)) none,
        defn bn (vNew 5)
          (summand bn 1 (vNew 0) ++ summand bn 1 (vNew 1) ++ summand bn 2 (vNew 0) ++
            summand bn 2 (vNew 1) ++ summand bn 3 (vNew 0) ++ summand bn 3 (vNew 1)) ],
    returns := [vNew 5] }

/-- Scenario B (`keep_one`): arguments `[x]`, statements `[ONE := x]`,
returns `[x]`. -/
def progB : Prog bn :=
  { arguments := [⟨vNew 0, false⟩],
    statements := [defn bn vOne (summand bn 1 (vNew 0))],
    returns := [vNew 0] }

/-- Scenario E (`keep_existing_quadratic_variable`): arguments `[x, y]`,
statements `[z := x·y, z := x]`, returns `[]`. -/
def progE : Prog bn :=
  { arguments := [⟨vNew 0, false⟩, ⟨vNew 1, false⟩],
    statements :=
      [ .constraint ⟨summand bn 1 (vNew 0), summand bn 1 (vNew 1)⟩
          (summand bn 1 (vNew 2)) none,
        defn bn (vNew 2) (summand bn 1 (vNew 0)) ],
    returns := [] }

/-- Scenario D: a lone `Directive` with solver `Bits(8)`, input `5·ONE` and
eight output variables. -/
def progD : Prog bn :=
  { arguments := [],
    statements :=
      [ .directive
          { inputs := [quadOfLin bn (summand bn 5 vOne)],
            outputs := (List.range 8).map vNew,
            solver := .Bits 8 } ],
    returns := [] }

/-- Scenario C (`unconstrained_private_input`): private argument `_0`, one
constraint `(1·~one)·(42·~one) == 1·~out_0`, returns `[~out_0]`. -/
def progC : Prog bn :=
  { arguments := [⟨vNew 0, true⟩],
    statements :=
      [ .constraint ⟨summand bn 1 vOne, summand bn 42 vOne⟩
          (summand bn 1 (vPub 0)) none ],
    returns := [vPub 0] }

/-- A program on which the redefinition optimizer does not preserve the
witness set: argument `[x]`, constraint `x·x == x + v` (which is kept, and
uses `v`), then `~one·(2·~one) == v` (which is dropped, recording
`v ↦ 2`).  The optimized program forgets that `v = 2`. -/
def cexProg : Prog 7 :=
  { arguments := [⟨vNew 0, false⟩],
    statements :=
      [ .constraint ⟨summand 7 1 (vNew 0), summand 7 1 (vNew 0)⟩
          (summand 7 1 (vNew 0) ++ summand 7 1 (vNew 2)) none,
        .constraint ⟨oneLin 7, summand 7 2 vOne⟩ (summand 7 1 (vNew 2)) none ],
    returns := [] }

/-- A witness of `optimize cexProg` (everything 0 except `ONE`). -/
def cexW : Var → F 7 := fun v => if v = vOne then 1 else 0

/-- A small directive-free program and witness used to instantiate the
amended claim C1: arguments `[x]`, statements `[y := x]`, returns `[x]`. -/
def fwdProg : Prog 7 :=
  { arguments := [⟨vNew 0, false⟩],
    statements := [defn 7 (vNew 1) (summand 7 1 (vNew 0))],
    returns := [vNew 0] }

/-- The assignment `x = y = 5`, `ONE = 1` satisfying `fwdProg`. -/
def fwdW : Var → F 7 := fun v => if v = vOne then 1 else 5

/-- Concrete generator data consistent with the layout pinned down by the
unit test in `embed.rs`: index 0 is `ONE`, the 512 message-schedule bits
occupy cs indices `1..512` and the 256 current-hash bits indices
`513..768`; with `aux_count = 768` the variable count is `V = 769`. -/
def g0 : Sha256RoundData bn :=
  { constraints := [],
    auxCount := 768,
    inputIndices := List.range' 1 512,
    currentHashIndices := List.range' 513 256,
    outputIndices := List.range' 1 256 }

/-! ### Detector characterization data -/

/-- All directive output variables of a statement list. -/
def dirOutputs (p : ℕ) : List (Stmt p) → Finset Var
  | [] => ∅
  | .constraint _ _ _ :: rest => dirOutputs p rest
  | .directive d :: rest => d.outputs.toFinset ∪ dirOutputs p rest

/-- All variables used inside some constraint of a statement list. -/
def consVars (p : ℕ) : List (Stmt p) → Finset Var
  | [] => ∅
  | .constraint q l _ :: rest => (constraintVars p q l).toFinset ∪ consVars p rest
  | .directive _ :: rest => consVars p rest

/-- Freshness of directive outputs: no output of a directive is used by a
constraint occurring earlier in the list (flattener-produced programs
introduce directive outputs before any use). -/
def FreshOutputs (p : ℕ) : List (Stmt p) → Prop
  | [] => True
  | .constraint q l _ :: rest =>
    (constraintVars p q l).toFinset ∩ dirOutputs p rest = ∅ ∧ FreshOutputs p rest
  | .directive _ :: rest => FreshOutputs p rest

/-! ## Evaluation lemmas -/

theorem evalLin_nil (p : ℕ) (w : Var → F p) : evalLin p w [] = 0 := rfl

theorem evalLin_cons (p : ℕ) (w : Var → F p) (v : Var) (c : F p) (l : LinComb p) :
    evalLin p w ((v, c) :: l) = c * w v + evalLin p w l := by
  simp [evalLin]

theorem evalLin_append (p : ℕ) (w : Var → F p) (a b : LinComb p) :
    evalLin p w (a ++ b) = evalLin p w a + evalLin p w b := by
  simp [evalLin]

theorem evalLin_summand (p : ℕ) (w : Var → F p) (c : F p) (v : Var) :
    evalLin p w (summand p c v) = c * w v := by
  simp [summand, evalLin]

theorem evalLin_smulLin (p : ℕ) (w : Var → F p) (l : LinComb p) (k : F p) :
    evalLin p w (smulLin p l k) = evalLin p w l * k := by
  induction l with
  | nil => simp [smulLin, evalLin]
  | cons t rest ih =>
    obtain ⟨v, c⟩ := t
    show evalLin p w ((v, c * k) :: smulLin p rest k) = evalLin p w ((v, c) :: rest) * k
    rw [evalLin_cons, evalLin_cons, ih, add_mul]
    ring

theorem evalLin_insertTerm (p : ℕ) (w : Var → F p) (v : Var) (c : F p) (l : LinComb p) :
    evalLin p w (insertTerm p v c l) = c * w v + evalLin p w l := by
  induction l with
  | nil =>
    simp [insertTerm, evalLin_cons, evalLin_nil]
  | cons t rest ih =>
    obtain ⟨x, d⟩ := t
    simp only [insertTerm]
    split_ifs with h1 h2 h3
    · subst h1
      rw [evalLin_cons]
      have hh : c * w v + (d * w v + evalLin p w rest) =
          (d + c) * w v + evalLin p w rest := by ring
      rw [hh, h2, zero_mul, zero_add]
    · subst h1
      simp only [evalLin_cons]
      ring
    · simp only [evalLin_cons]
    · simp only [evalLin_cons, ih]
      ring

theorem evalLin_canonAux (p : ℕ) (w : Var → F p) :
    ∀ (l acc : LinComb p),
      evalLin p w
        (l.foldl (fun acc t => if t.2 = 0 then acc else insertTerm p t.1 t.2 acc) acc) =
        evalLin p w acc + evalLin p w l := by
  intro l
  induction l with
  | nil => intro acc; simp [evalLin]
  | cons t rest ih =>
    intro acc
    obtain ⟨v, c⟩ := t
    simp only [List.foldl_cons]
    by_cases hc : c = 0
    · rw [if_pos hc, ih, evalLin_cons, hc, zero_mul, zero_add]
    · rw [if_neg hc, ih, evalLin_insertTerm, evalLin_cons]
      ring

theorem evalLin_canon (p : ℕ) (w : Var → F p) (l : LinComb p) :
    evalLin p w (canon p l) = evalLin p w l := by
  unfold canon
  rw [evalLin_canonAux, evalLin_nil, zero_add]

theorem insertTerm_ne_zero (p : ℕ) (v : Var) (c : F p) (hc : c ≠ 0) :
    ∀ l : LinComb p, (∀ t ∈ l, t.2 ≠ 0) → ∀ t ∈ insertTerm p v c l, t.2 ≠ 0 := by
  intro l
  induction l with
  | nil =>
    intro _ t ht
    simp only [insertTerm, List.mem_singleton] at ht
    subst ht
    exact hc
  | cons hd rest ih =>
    intro hall t ht
    obtain ⟨x, d⟩ := hd
    simp only [insertTerm] at ht
    split_ifs at ht with h1 h2 h3
    · exact hall t (List.mem_cons_of_mem _ ht)
    · rcases List.mem_cons.mp ht with h | h
      · subst h; exact h2
      · exact hall t (List.mem_cons_of_mem _ h)
    · rcases List.mem_cons.mp ht with h | h
      · subst h; exact hc
      · exact hall t h
    · rcases List.mem_cons.mp ht with h | h
      · subst h; exact hall (x, d) (List.mem_cons_self _ _)
      · exact ih (fun t2 ht2 => hall t2 (List.mem_cons_of_mem _ ht2)) t h

theorem canonAux_ne_zero (p : ℕ) :
    ∀ (l acc : LinComb p), (∀ t ∈ acc, t.2 ≠ 0) →
      ∀ t ∈ l.foldl (fun acc t => if t.2 = 0 then acc else insertTerm p t.1 t.2 acc) acc,
        t.2 ≠ 0 := by
  intro l
  induction l with
  | nil => intro acc hacc; exact hacc
  | cons hd rest ih =>
    intro acc hacc
    obtain ⟨v, c⟩ := hd
    simp only [List.foldl_cons]
    by_cases hc : c = 0
    · rw [if_pos hc]
      exact ih acc hacc
    · rw [if_neg hc]
      exact ih _ (insertTerm_ne_zero p v c hc acc hacc)

theorem canon_ne_zero (p : ℕ) (l : LinComb p) : ∀ t ∈ canon p l, t.2 ≠ 0 :=
  canonAux_ne_zero p l [] (by intro t ht; exact absurd ht (List.not_mem_nil t))

/-! ## Correctness of the partial parsers -/

theorem tryConstant_ok (p : ℕ) (w : Var → F p) (l : LinComb p) (c : F p)
    (h : tryConstant p l = .ok c) (hone : w vOne = 1) : evalLin p w l = c := by
  unfold tryConstant at h
  rcases hcl : canon p l with _ | ⟨⟨v, c2⟩, rest⟩
  · rw [hcl] at h
    simp only [constOfCanon, Except.ok.injEq] at h
    rw [← evalLin_canon p w l, hcl, evalLin_nil, h]
  · rcases rest with _ | ⟨t2, rest2⟩
    · rw [hcl] at h
      simp only [constOfCanon] at h
      split_ifs at h with hv
      simp only [Except.ok.injEq] at h
      subst hv
      rw [← evalLin_canon p w l, hcl, evalLin_cons, evalLin_nil, hone, h]
      ring
    · rw [hcl] at h
      exact absurd h (by simp [constOfCanon])

theorem trySummand_ok (p : ℕ) (w : Var → F p) (l : LinComb p) (v : Var) (c : F p)
    (h : trySummand p l = .ok (v, c)) :
    evalLin p w l = c * w v ∧ c ≠ 0 := by
  unfold trySummand at h
  rcases hcl : canon p l with _ | ⟨⟨v2, c2⟩, rest⟩
  · rw [hcl] at h
    exact absurd h (by simp [summandOfCanon])
  · rcases rest with _ | ⟨t2, rest2⟩
    · rw [hcl] at h
      simp only [summandOfCanon] at h
      split_ifs at h with hv
      simp only [Except.ok.injEq, Prod.mk.injEq] at h
      obtain ⟨hv2, hc2⟩ := h
      rw [← hv2, ← hc2]
      refine ⟨?_, canon_ne_zero p l (v2, c2) (by rw [hcl]; exact List.mem_cons_self _ _)⟩
      rw [← evalLin_canon p w l, hcl, evalLin_cons, evalLin_nil, add_zero]
    · rw [hcl] at h
      exact absurd h (by simp [summandOfCanon])

theorem trySummand_error_eq (p : ℕ) (l l2 : LinComb p)
    (h : trySummand p l = .error l2) : l2 = l := by
  unfold trySummand at h
  rcases hcl : canon p l with _ | ⟨⟨v2, c2⟩, rest⟩
  · rw [hcl] at h
    simp only [summandOfCanon, Except.error.injEq] at h
    exact h.symm
  · rcases rest with _ | ⟨t2, rest2⟩
    · rw [hcl] at h
      simp only [summandOfCanon] at h
      split_ifs at h with hv
      simp only [Except.error.injEq] at h
      exact h.symm
    · rw [hcl] at h
      simp only [summandOfCanon, Except.error.injEq] at h
      exact h.symm

theorem tryLinear_ok (p : ℕ) (w : Var → F p) (q : QuadComb p) (L : LinComb p)
    (h : tryLinear p q = .ok L) (hone : w vOne = 1) :
    evalLin p w L = evalQuad p w q := by
  unfold tryLinear at h
  rcases h1 : tryConstant p q.left with l1 | c1
  · rw [h1] at h
    rcases h2 : tryConstant p q.right with l2 | c2
    · rw [h2] at h
      exact absurd h (by simp)
    · rw [h2] at h
      simp only [Except.ok.injEq] at h
      subst h
      rw [evalLin_smulLin]
      unfold evalQuad
      rw [tryConstant_ok p w q.right c2 h2 hone]
  · rw [h1] at h
    simp only [Except.ok.injEq] at h
    subst h
    rw [evalLin_smulLin]
    unfold evalQuad
    rw [tryConstant_ok p w q.left c1 h1 hone]
    ring

theorem tryLinear_error_eq (p : ℕ) (q q2 : QuadComb p)
    (h : tryLinear p q = .error q2) : q2 = q := by
  unfold tryLinear at h
  rcases h1 : tryConstant p q.left with l1 | c1
  · rw [h1] at h
    rcases h2 : tryConstant p q.right with l2 | c2
    · rw [h2] at h
      simp only [Except.error.injEq] at h
      exact h.symm
    · rw [h2] at h
      exact absurd h (by simp)
  · rw [h1] at h
    exact absurd h (by simp)

/-! ## Substitution correctness -/

theorem substLin_eval (p : ℕ) (w : Var → F p) (s : List (Var × LinComb p))
    (hg : GoodSubst p w s) (l : LinComb p) :
    evalLin p w (substLin p s l) = evalLin p w l := by
  unfold substLin
  split_ifs with h
  · have aux : ∀ (l2 acc : LinComb p),
        evalLin p w
          (l2.foldl
            (fun acc t =>
              acc ++
                match alookup p s t.1 with
                | some cl => smulLin p cl t.2
                | none => summand p t.2 t.1)
            acc) =
          evalLin p w acc + evalLin p w l2 := by
      intro l2
      induction l2 with
      | nil => intro acc; simp [evalLin]
      | cons t rest ih =>
        intro acc
        obtain ⟨v, c⟩ := t
        simp only [List.foldl_cons]
        rw [ih, evalLin_append, evalLin_cons]
        rcases ha : alookup p s v with _ | cl
        · simp only [evalLin_summand]
          ring
        · simp only [evalLin_smulLin]
          rw [← hg v cl ha]
          ring
    rw [aux l [], evalLin_nil, zero_add]
  · rfl

theorem substQuad_eval (p : ℕ) (w : Var → F p) (s : List (Var × LinComb p))
    (hg : GoodSubst p w s) (q : QuadComb p) :
    evalQuad p w (substQuad p s q) = evalQuad p w q := by
  unfold evalQuad substQuad
  rw [substLin_eval p w s hg, substLin_eval p w s hg]

/-! ## Field inversion -/

theorem powModAux_eq (p : ℕ) (a : F p) :
    ∀ (fuel n : ℕ), n ≤ fuel → powModAux p fuel a n = a ^ n := by
  intro fuel
  induction fuel with
  | zero =>
    intro n hn
    have hn0 : n = 0 := Nat.le_zero.mp hn
    subst hn0
    simp [powModAux]
  | succ f ih =>
    intro n hn
    by_cases h0 : n = 0
    · subst h0
      simp [powModAux]
    · have hdiv : n / 2 ≤ f := by omega
      show (if n = 0 then 1
          else
            let h := powModAux p f a (n / 2)
            if n % 2 = 1 then h * h * a else h * h) = a ^ n
      rw [if_neg h0]
      simp only
      rw [ih (n / 2) hdiv]
      by_cases h2 : n % 2 = 1
      · rw [if_pos h2, ← pow_add, ← pow_succ]
        congr 1
        omega
      · rw [if_neg h2, ← pow_add]
        congr 1
        omega

theorem finv_mul_cancel (p : ℕ) [Fact p.Prime] (k : F p) (hk : k ≠ 0) :
    finv p k * k = 1 := by
  have hp2 : 2 ≤ p := (Fact.out : p.Prime).two_le
  unfold finv
  rw [powModAux_eq p k p (p - 2) (by omega), ← pow_succ]
  have he : p - 2 + 1 = p - 1 := by omega
  rw [he]
  exact ZMod.pow_card_sub_one_eq_one hk

/-! ## Forward preservation through the optimizer -/

theorem foldStmt_constraint_forward (p : ℕ) [Fact p.Prime] (w : Var → F p)
    (s : OptState p) (q : QuadComb p) (lin : LinComb p) (msg : Option String)
    (hone : w vOne = 1) (hg : GoodSubst p w s.substitution)
    (hsat : evalQuad p w q = evalLin p w lin) :
    (∀ st ∈ (foldStmt p s (.constraint q lin msg)).1, satStmt p w st) ∧
      GoodSubst p w (foldStmt p s (.constraint q lin msg)).2.substitution := by
  have hq : evalQuad p w (substQuad p s.substitution q) = evalLin p w lin := by
    rw [substQuad_eval p w _ hg, hsat]
  have hl : evalLin p w (substLin p s.substitution lin) = evalLin p w lin :=
    substLin_eval p w _ hg lin
  by_cases h1 : (substLin p s.substitution lin).isEmpty
  · have he : foldStmt p s (.constraint q lin msg) =
        ([.constraint (substQuad p s.substitution q) (substLin p s.substitution lin) msg],
          s) := by
      simp only [foldStmt]
      rw [if_pos h1]
    rw [he]
    refine ⟨?_, hg⟩
    intro st hst
    rw [List.mem_singleton] at hst
    subst hst
    show evalQuad p w _ = evalLin p w _
    rw [hq, hl]
  · by_cases h2 : headVar p (substLin p s.substitution lin) ∈ s.ignore ∨
        (alookup p s.substitution (headVar p (substLin p s.substitution lin))).isSome
    · have he : foldStmt p s (.constraint q lin msg) =
          ([.constraint (substQuad p s.substitution q) (substLin p s.substitution lin) msg],
            s) := by
        simp only [foldStmt]
        rw [if_neg (by simp [h1]), if_pos h2]
      rw [he]
      refine ⟨?_, hg⟩
      intro st hst
      rw [List.mem_singleton] at hst
      subst hst
      show evalQuad p w _ = evalLin p w _
      rw [hq, hl]
    · rcases hts : trySummand p (substLin p s.substitution lin) with l2 | ⟨v, k⟩
      · have he : foldStmt p s (.constraint q lin msg) =
            ([.constraint (substQuad p s.substitution q) l2 msg], s) := by
          simp only [foldStmt]
          rw [if_neg (by simp [h1]), if_neg h2, hts]
        rw [he]
        refine ⟨?_, hg⟩
        intro st hst
        rw [List.mem_singleton] at hst
        subst hst
        show evalQuad p w _ = evalLin p w _
        rw [trySummand_error_eq p _ _ hts, hq, hl]
      · have hsum := trySummand_ok p w (substLin p s.substitution lin) v k hts
        rcases htl : tryLinear p (substQuad p s.substitution q) with q2 | L
        · have he : foldStmt p s (.constraint q lin msg) =
              ([.constraint q2 (summand p k v) msg], { s with ignore := v :: s.ignore }) := by
            simp only [foldStmt]
            rw [if_neg (by simp [h1]), if_neg h2, hts, htl]
          rw [he]
          refine ⟨?_, hg⟩
          intro st hst
          rw [List.mem_singleton] at hst
          subst hst
          show evalQuad p w _ = evalLin p w _
          rw [tryLinear_error_eq p _ _ htl, hq, evalLin_summand, ← hsum.1, hl]
        · have he : foldStmt p s (.constraint q lin msg) =
              ([],
                { s with
                  substitution :=
                    (v, canon p (divByScalar p L k)) :: s.substitution }) := by
            simp only [foldStmt]
            rw [if_neg (by simp [h1]), if_neg h2, hts, htl]
          rw [he]
          refine ⟨by intro st hst; exact absurd hst (List.not_mem_nil st), ?_⟩
          intro v2 l2 hlk
          show w v2 = evalLin p w l2
          unfold alookup at hlk
          split_ifs at hlk with hv2
          · simp only [Option.some.injEq] at hlk
            subst hlk
            rw [hv2]
            have hL : evalLin p w L = k * w v := by
              rw [tryLinear_ok p w _ L htl hone, hq, ← hl, hsum.1]
            rw [evalLin_canon]
            unfold divByScalar
            rw [evalLin_smulLin, hL]
            have hfk := finv_mul_cancel p k hsum.2
            have hcalc : k * w v * finv p k = w v := by
              calc k * w v * finv p k = w v * (finv p k * k) := by ring
                _ = w v * 1 := by rw [hfk]
                _ = w v := by ring
            rw [hcalc]
          · exact hg v2 l2 hlk

theorem foldStmts_forward (p : ℕ) [Fact p.Prime] (w : Var → F p) :
    ∀ (l : List (Stmt p)) (s : OptState p),
      w vOne = 1 → GoodSubst p w s.substitution →
      (∀ st ∈ l, satStmt p w st) → (∀ st ∈ l, isDirStmt p st = false) →
      (∀ st ∈ (foldStmts p s l).1, satStmt p w st) ∧
        GoodSubst p w (foldStmts p s l).2.substitution := by
  intro l
  induction l with
  | nil =>
    intro s hone hg _ _
    refine ⟨?_, hg⟩
    intro st hst
    exact absurd hst (by simp [foldStmts])
  | cons st rest ih =>
    intro s hone hg hsat hdf
    cases st with
    | directive d =>
      exact absurd (hdf _ (List.mem_cons_self _ _)) (by simp [isDirStmt])
    | constraint q lin msg =>
      have h1 := foldStmt_constraint_forward p w s q lin msg hone hg
        (hsat _ (List.mem_cons_self _ _))
      have h2 := ih (foldStmt p s (.constraint q lin msg)).2 hone h1.2
        (fun st2 hst2 => hsat _ (List.mem_cons_of_mem _ hst2))
        (fun st2 hst2 => hdf _ (List.mem_cons_of_mem _ hst2))
      constructor
      · intro st2 hst2
        simp only [foldStmts] at hst2
        rw [List.mem_append] at hst2
        rcases hst2 with h | h
        · exact h1.1 _ h
        · exact h2.1 _ h
      · simpa only [foldStmts] using h2.2

/-! ## Claim theorems -/

/-- C1 (amended): for a directive-free program over a prime field, every
witness of the original program is itself a witness of the optimized
program, so for every witness of the original there exists a witness of the
optimized program agreeing with it on the argument and return variables.
The claimed converse direction (and with it the exactly-one
correspondence) fails on the code in general: see
`claim_C1_counterexample`. -/
theorem claim_C1_amended (p : ℕ) [Fact p.Prime] (P : Prog p) (w : Var → F p)
    (hdf : DirectiveFree p P) (hw : Satisfies p w P) :
    ∃ w2 : Var → F p, Satisfies p w2 (optimize p P) ∧
      ∀ v ∈ ioVars p P, w2 v = w v := by
  refine ⟨w, ⟨hw.1, ?_⟩, fun v _ => rfl⟩
  have hinit : GoodSubst p w (initState p P).substitution := by
    intro v l hl
    simp [initState, alookup] at hl
  have h := foldStmts_forward p w P.statements (initState p P) hw.1 hinit hw.2 hdf
  intro st hst
  exact h.1 st hst

/-- C1 (counterexample): the redefinition optimizer does not preserve the
set of satisfying assignments for every IR program.  On `cexProg` the
statement `~one·(2·~one) == v` is dropped (recording `v ↦ 2`) although `v`
occurs in the earlier, kept constraint `x·x == x + v`; the all-zero
assignment (with `ONE = 1`) satisfies the optimized program but no witness
of the original program agrees with it on the argument and return
variables, refuting the claimed "for every witness of the optimized program
there exists exactly one witness of the original agreeing on arguments and
returns". -/
theorem claim_C1_counterexample :
    Satisfies 7 cexW (optimize 7 cexProg) ∧
      ¬∃ w : Var → F 7, Satisfies 7 w cexProg ∧
        ∀ v ∈ ioVars 7 cexProg, w v = cexW v := by
  constructor
  · decide
  · rintro ⟨w, ⟨hone, hsat⟩, hagree⟩
    have hx : w (vNew 0) = 0 := by
      have h := hagree (vNew 0) (by simp [ioVars, cexProg])
      rw [h]
      decide
    have h2 : w (vNew 2) = 2 := by
      have hs := hsat
        (.constraint ⟨oneLin 7, summand 7 2 vOne⟩ (summand 7 1 (vNew 2)) none)
        (by simp [cexProg])
      simp only [satStmt, evalQuad, oneLin, summand, evalLin_cons, evalLin_nil] at hs
      have hs2 : (2 : F 7) = w (vNew 2) := by
        calc (2 : F 7) = (1 * w vOne + 0) * (2 * w vOne + 0) := by rw [hone]; ring
          _ = 1 * w (vNew 2) + 0 := hs
          _ = w (vNew 2) := by ring
      exact hs2.symm
    have h1 := hsat
      (.constraint ⟨summand 7 1 (vNew 0), summand 7 1 (vNew 0)⟩
        (summand 7 1 (vNew 0) ++ summand 7 1 (vNew 2)) none)
      (by simp [cexProg])
    simp only [satStmt, evalQuad, summand, List.cons_append, List.nil_append,
      evalLin_cons, evalLin_nil] at h1
    rw [hx, h2] at h1
    exact absurd h1 (by decide)

/-- C1 (witness): the amended theorem applied to the concrete directive-free
program `x := input; y := x; return x` over `F 7` with the witness
assigning 5 to both variables. -/
theorem claim_C1_witness :
    Nat.Prime 7 ∧ DirectiveFree 7 fwdProg ∧ Satisfies 7 fwdW fwdProg ∧
      ∃ w2 : Var → F 7, Satisfies 7 w2 (optimize 7 fwdProg) ∧
        ∀ v ∈ ioVars 7 fwdProg, w2 v = fwdW v := by
  have hp : Nat.Prime 7 := by norm_num
  haveI : Fact (Nat.Prime 7) := ⟨hp⟩
  have hdf : DirectiveFree 7 fwdProg := by decide
  have hw : Satisfies 7 fwdW fwdProg := by decide
  exact ⟨hp, hdf, hw, claim_C1_amended 7 fwdProg fwdW hdf hw⟩

/-- C2: running the redefinition optimizer on the Scenario F program
(`a := x+y; b := a+x+y; c := b+x+y; 2·c == 6x+6y; r := a+b+c; return r`)
eliminates the definitions of `a`, `b` and `c`, turns the constraint into
the retained tautology `6x+6y == 6x+6y`, and replaces `r`'s defining
expression by the expansion `x+y + 2x+2y + 3x+3y`, exactly as the unit test
`substitute_lincomb` records. -/
theorem claim_C2_scenarioF : optimize bn progF = expectedProgF := by decide

/-- C3: the optimizer never substitutes away `ONE`: the `~one` variable is a
member of the ignored set seeded before any statement is traversed, for
every program; and the Scenario B program (`arguments [x]`,
`statements [ONE := x]`, `returns [x]`) is returned unchanged. -/
theorem claim_C3_preserve_one :
    (∀ (p : ℕ) (P : Prog p), vOne ∈ (initState p P).ignore) ∧
      optimize bn progB = progB := by
  refine ⟨fun p P => ?_, by decide⟩
  simp [initState]

/-- C4: on the Scenario D program, whose lone statement is a `Directive`
with solver `Bits(8)` and constant input `5·ONE`, the optimizer runs the
solver at compile time, deletes the directive (the optimized program has no
statements), and binds each of the eight output variables in the
substitution map to the corresponding bit of 5, high bit first —
`[0,0,0,0,0,1,0,1]` (a scalar `b` is recorded as the canonical form of the
constant combination `b·~one`, which is empty for `b = 0`). -/
theorem claim_C4_directive_folding :
    (∀ (p : ℕ) (s : OptState p) (d : Directive p),
        ((((d.inputs.map (substQuad p s.substitution)).map (quadReduce p)).map
            (tryQuadConst p)).all fun r => r.toOption.isSome) = true →
        (foldStmt p s (.directive d)).1 = []) ∧
      optimize bn progD = { arguments := [], statements := [], returns := [] } ∧
      ((List.range 8).map fun i =>
          alookup bn (optimizeState bn progD).2.substitution (vNew i)) =
        ([0, 0, 0, 0, 0, 1, 0, 1] : List (F bn)).map fun b =>
          some (canon bn (constLin bn b)) := by
  refine ⟨fun p s d hconst => ?_, by decide, by decide⟩
  simp only [foldStmt]
  rw [if_pos hconst]

/-- C8: on the Scenario E program (`z := x·y` then `z := x`), the first
constraint has a genuinely quadratic left-hand side, so the optimizer
re-emits it and adds `z` to the ignored set, which also keeps the later
linear redefinition `z := x`: the program is returned unchanged with both
statements present. -/
theorem claim_C8_quadratic_preserved :
    optimize bn progE = progE ∧ vNew 2 ∈ (optimizeState bn progE).2.ignore := by
  constructor <;> decide

/-! ## The unconstrained-variable detector -/

theorem detectFold_eq (p : ℕ) :
    ∀ (l : List (Stmt p)) (S : Finset Var), FreshOutputs p l →
      detectFold p S l = (S ∪ dirOutputs p l) \ consVars p l := by
  intro l
  induction l with
  | nil =>
    intro S _
    simp [detectFold, dirOutputs, consVars]
  | cons st rest ih =>
    intro S hf
    cases st with
    | constraint q lin msg =>
      simp only [FreshOutputs] at hf
      obtain ⟨hdisj, hf2⟩ := hf
      have hd : ∀ x, x ∈ (constraintVars p q lin).toFinset → x ∉ dirOutputs p rest := by
        intro x hx hb
        have hmem : x ∈ (constraintVars p q lin).toFinset ∩ dirOutputs p rest :=
          Finset.mem_inter.mpr ⟨hx, hb⟩
        rw [hdisj] at hmem
        exact absurd hmem (Finset.not_mem_empty x)
      show detectFold p (S \ (constraintVars p q lin).toFinset) rest = _
      rw [ih _ hf2]
      show _ = (S ∪ dirOutputs p rest) \
        ((constraintVars p q lin).toFinset ∪ consVars p rest)
      ext x
      simp only [Finset.mem_sdiff, Finset.mem_union]
      have hdx := hd x
      tauto
    | directive d =>
      simp only [FreshOutputs] at hf
      show detectFold p (S ∪ d.outputs.toFinset) rest = _
      rw [ih _ hf]
      show _ = (S ∪ (d.outputs.toFinset ∪ dirOutputs p rest)) \ consVars p rest
      rw [Finset.union_assoc]

/-- C5: provided no directive output is used by an earlier constraint (as in
every flattener-produced program), the detector returns `Ok` exactly when
every private argument and directive output participates in some
constraint, and otherwise `Err(count)` where `count > 0` is the number of
such variables left unconstrained; on the Scenario C program (one private
argument `_0` and a single constraint `1·42 = out_0` not mentioning `_0`)
it returns `Err(1)`, and the rendered message contains
"found 1 occurrence". -/
theorem claim_C5_detector :
    (∀ (p : ℕ) (P : Prog p), FreshOutputs p P.statements →
        ((detect p P = .ok () ↔
            privateArgs p P ∪ dirOutputs p P.statements ⊆ consVars p P.statements) ∧
          ∀ n, detect p P = .error n →
            n = ((privateArgs p P ∪ dirOutputs p P.statements) \
                  consVars p P.statements).card ∧ 0 < n)) ∧
      detect bn progC = .error 1 ∧
      errorMessage 1 =
        "Found unconstrained variables during IR analysis (" ++
          "found 1 occurrence" ++ ")" := by
  refine ⟨fun p P hf => ?_, by decide, rfl⟩
  have hfold := detectFold_eq p P.statements (privateArgs p P) hf
  constructor
  · simp only [detect]
    rw [hfold]
    constructor
    · intro h
      split_ifs at h with he
      exact Finset.sdiff_eq_empty_iff_subset.mp he
    · intro hsub
      rw [if_pos (Finset.sdiff_eq_empty_iff_subset.mpr hsub)]
  · intro n hn
    simp only [detect] at hn
    rw [hfold] at hn
    split_ifs at hn with he
    have h3 : ((privateArgs p P ∪ dirOutputs p P.statements) \
        consVars p P.statements).card = n := Except.error.inj hn
    refine ⟨h3.symm, ?_⟩
    rw [← h3]
    exact Finset.card_pos.mpr (Finset.nonempty_iff_ne_empty.mpr he)

/-- C5 (witness): the characterization applied to the Scenario C program. -/
theorem claim_C5_witness :
    FreshOutputs bn progC.statements ∧
      ((detect bn progC = .ok () ↔
          privateArgs bn progC ∪ dirOutputs bn progC.statements ⊆
            consVars bn progC.statements) ∧
        ∀ n, detect bn progC = .error n →
          n = ((privateArgs bn progC ∪ dirOutputs bn progC.statements) \
                consVars bn progC.statements).card ∧ 0 < n) := by
  have hf : FreshOutputs bn progC.statements := by
    simp [progC, FreshOutputs, dirOutputs]
  exact ⟨hf, claim_C5_detector.1 bn progC hf⟩

/-! ## The embedded gadgets -/

/-- C6: for every width `w ≤ β`, the flat function produced by
`unpack_to_bitwidth(w)` has exactly the claimed statement shape: the
`Bits(w)` directive on `x` (variable 0) with outputs `o_1 .. o_w`
(variables 1..w), one booleanity constraint `o_i·o_i = o_i` per bit, the
weighted-sum constraint `Σ_{i=0..w-1} o_{w−i}·2^i = x·1` (high bit `o_1`,
low bit `o_w`), and the return of `o_1 … o_w` in order
(`unpackSpecShape` transcribes the claim). -/
theorem claim_C6_unpack_shape (p β width : ℕ) (_h : width ≤ β) :
    unpackToBitwidth p width = unpackSpecShape p width := by
  unfold unpackToBitwidth unpackSpecShape
  simp [List.map_map, Function.comp, List.append_assoc]

/-- C6 (witness): the shape theorem at `β = 10`, `w = 3`. -/
theorem claim_C6_witness :
    3 ≤ 10 ∧ unpackToBitwidth bn 3 = unpackSpecShape bn 3 :=
  ⟨by norm_num, claim_C6_unpack_shape bn 10 3 (by norm_num)⟩

theorem zip_self_map {α β : Type} (f : α → β) :
    ∀ l : List α, l.zip (l.map f) = l.map fun i => (i, f i) := by
  intro l
  induction l with
  | nil => rfl
  | cons x t ih => simp [ih]

theorem sha256Round_arguments (p : ℕ) (g : Sha256RoundData p) :
    (sha256Round p g).arguments =
      ((g.inputIndices ++ g.currentHashIndices).map fun i =>
        ⟨vNew (i + (g.auxCount + 1)), true⟩) := by
  show ((g.inputIndices.map (· + (g.auxCount + 1)) ++
      g.currentHashIndices.map (· + (g.auxCount + 1))).map fun i =>
        (⟨vNew i, true⟩ : FlatParameter)) = _
  rw [← List.map_append, List.map_map]
  rfl

theorem sha256Round_statements (p : ℕ) (g : Sha256RoundData p) :
    (sha256Round p g).statements =
      FlatStatement.Directive
          { outputs := (List.range (g.auxCount + 1)).map vNew,
            inputs :=
              (g.inputIndices ++ g.currentHashIndices).map fun i =>
                .Identifier (vNew (i + (g.auxCount + 1))),
            solver := .Sha256Round } ::
        FlatStatement.Condition (.Identifier (vNew 0)) (.Number 1) ::
          (((g.inputIndices ++ g.currentHashIndices).map fun i =>
              FlatStatement.Condition (.Identifier (vNew i))
                (.Identifier (vNew (i + (g.auxCount + 1))))) ++
            (g.constraints.map (bellmanStmt p) ++
              [.Return (g.outputIndices.map fun o =>
                FlatExpression.Identifier (vNew o))])) := by
  have hinp : (g.inputIndices.map (· + (g.auxCount + 1)) ++
      g.currentHashIndices.map (· + (g.auxCount + 1))).map
        (fun i => (FlatExpression.Identifier (vNew i) : FlatExpression p)) =
      (g.inputIndices ++ g.currentHashIndices).map fun i =>
        .Identifier (vNew (i + (g.auxCount + 1))) := by
    rw [← List.map_append, List.map_map]
    rfl
  have hbind :
      (((g.inputIndices ++ g.currentHashIndices).zip
          (g.inputIndices.map (· + (g.auxCount + 1)) ++
            g.currentHashIndices.map (· + (g.auxCount + 1)))).map
        fun t : ℕ × ℕ =>
          (FlatStatement.Condition (.Identifier (vNew t.1)) (.Identifier (vNew t.2)) :
            FlatStatement p)) =
        (g.inputIndices ++ g.currentHashIndices).map fun i =>
          FlatStatement.Condition (.Identifier (vNew i))
            (.Identifier (vNew (i + (g.auxCount + 1)))) := by
    rw [← List.map_append, zip_self_map, List.map_map]
    rfl
  show FlatStatement.Directive
      { outputs := (List.range (g.auxCount + 1)).map vNew,
        inputs :=
          (g.inputIndices.map (· + (g.auxCount + 1)) ++
            g.currentHashIndices.map (· + (g.auxCount + 1))).map
              fun i => (FlatExpression.Identifier (vNew i) : FlatExpression p),
        solver := .Sha256Round } ::
      FlatStatement.Condition (.Identifier (vNew 0)) (.Number 1) ::
        ((((g.inputIndices ++ g.currentHashIndices).zip
            (g.inputIndices.map (· + (g.auxCount + 1)) ++
              g.currentHashIndices.map (· + (g.auxCount + 1)))).map
          fun t : ℕ × ℕ =>
            (FlatStatement.Condition (.Identifier (vNew t.1))
              (.Identifier (vNew t.2)) : FlatStatement p)) ++
          g.constraints.map (bellmanStmt p) ++
          [.Return (g.outputIndices.map fun o =>
            FlatExpression.Identifier (vNew o))]) = _
  rw [hinp, hbind, List.append_assoc]

/-- C7 (amended): for generator data with 512 input-bit indices and 256
current-hash indices, `sha256_round` has exactly 768 private arguments,
namely the generator indices offset by `V = aux_count + 1`; the first
statement is the `Sha256Round` directive whose inputs are the 768 argument
variables and whose outputs are the `V` constraint-system variables
`0 .. V-1`; the second statement binds variable 0 to the constant 1; and
the following 768 statements bind each constraint-system input index `i`
to its argument `i + V`.  Because the generator allocates its inputs from
index 1 (index 0 is `ONE`), the argument ids start at `V + 1`, not at `V`
as the claim states (`claim_C7_counterexample`). -/
theorem claim_C7_sha256_layout (p : ℕ) (g : Sha256RoundData p)
    (h1 : g.inputIndices.length = 512) (h2 : g.currentHashIndices.length = 256) :
    (sha256Round p g).arguments.length = 768 ∧
      (sha256Round p g).arguments =
        ((g.inputIndices ++ g.currentHashIndices).map fun i =>
          ⟨vNew (i + (g.auxCount + 1)), true⟩) ∧
      (sha256Round p g).statements.head? =
        some (.Directive
          { outputs := (List.range (g.auxCount + 1)).map vNew,
            inputs :=
              (g.inputIndices ++ g.currentHashIndices).map fun i =>
                .Identifier (vNew (i + (g.auxCount + 1))),
            solver := .Sha256Round }) ∧
      (sha256Round p g).statements[1]? =
        some (.Condition (.Identifier (vNew 0)) (.Number 1)) ∧
      ((sha256Round p g).statements.drop 2).take 768 =
        ((g.inputIndices ++ g.currentHashIndices).map fun i =>
          .Condition (.Identifier (vNew i)) (.Identifier (vNew (i + (g.auxCount + 1))))) := by
  refine ⟨?_, ?_, ?_, ?_, ?_⟩
  · rw [sha256Round_arguments]
    simp [h1, h2]
  · exact sha256Round_arguments p g
  · rw [sha256Round_statements]
    rfl
  · rw [sha256Round_statements]
    simp
  · rw [sha256Round_statements]
    show (((g.inputIndices ++ g.currentHashIndices).map fun i =>
        FlatStatement.Condition (.Identifier (vNew i))
          (.Identifier (vNew (i + (g.auxCount + 1))))) ++
        (g.constraints.map (bellmanStmt p) ++
          [FlatStatement.Return (g.outputIndices.map fun o =>
            FlatExpression.Identifier (vNew o))])).take 768 =
      ((g.inputIndices ++ g.currentHashIndices).map fun i =>
        FlatStatement.Condition (.Identifier (vNew i))
          (.Identifier (vNew (i + (g.auxCount + 1)))))
    have hlen : ((g.inputIndices ++ g.currentHashIndices).map fun i =>
        (FlatStatement.Condition (.Identifier (vNew i))
          (.Identifier (vNew (i + (g.auxCount + 1)))) : FlatStatement p)).length = 768 := by
      simp [h1, h2]
    rw [← hlen, List.take_left]

/-- C7 (counterexample): on generator data matching the layout recorded by
the unit test in `embed.rs` (inputs at constraint-system indices 1..768,
index 0 being `ONE`), the 768 private arguments of `sha256_round` start at
`FlatVariable::new(V + 1)` where `V = aux_count + 1 = 769`; no argument id
is `FlatVariable::new(V)`, contradicting the claim that the argument ids
start at `V`. -/
theorem claim_C7_counterexample :
    g0.auxCount + 1 = 769 ∧
      (sha256Round bn g0).arguments.length = 768 ∧
      (sha256Round bn g0).arguments.head? = some ⟨vNew 770, true⟩ ∧
      ∀ a ∈ (sha256Round bn g0).arguments, a.id ≠ vNew 769 := by
  refine ⟨rfl, ?_, by decide, ?_⟩
  · rw [sha256Round_arguments]
    simp [g0]
  · rw [sha256Round_arguments]
    intro a ha
    rw [List.mem_map] at ha
    obtain ⟨i, hi, rfl⟩ := ha
    show vNew (i + (g0.auxCount + 1)) ≠ vNew 769
    have hi1 : 1 ≤ i := by
      rw [List.mem_append] at hi
      rcases hi with h | h
      · rw [show g0.inputIndices = List.range' 1 512 from rfl, List.mem_range'] at h
        omega
      · rw [show g0.currentHashIndices = List.range' 513 256 from rfl,
          List.mem_range'] at h
        omega
    show ((i + (g0.auxCount + 1) : ℕ) : Int) + 1 ≠ ((769 : ℕ) : Int) + 1
    have : g0.auxCount = 768 := rfl
    omega

/-- C7 (witness): the layout theorem applied to the concrete generator data
`g0`. -/
theorem claim_C7_witness :
    g0.inputIndices.length = 512 ∧ g0.currentHashIndices.length = 256 ∧
      ((sha256Round bn g0).arguments.length = 768 ∧
        (sha256Round bn g0).arguments =
          ((g0.inputIndices ++ g0.currentHashIndices).map fun i =>
            ⟨vNew (i + (g0.auxCount + 1)), true⟩) ∧
        (sha256Round bn g0).statements.head? =
          some (.Directive
            { outputs := (List.range (g0.auxCount + 1)).map vNew,
              inputs :=
                (g0.inputIndices ++ g0.currentHashIndices).map fun i =>
                  .Identifier (vNew (i + (g0.auxCount + 1))),
              solver := .Sha256Round }) ∧
        (sha256Round bn g0).statements[1]? =
          some (.Condition (.Identifier (vNew 0)) (.Number 1)) ∧
        ((sha256Round bn g0).statements.drop 2).take 768 =
          ((g0.inputIndices ++ g0.currentHashIndices).map fun i =>
            .Condition (.Identifier (vNew i))
              (.Identifier (vNew (i + (g0.auxCount + 1)))))) :=
  ⟨by simp [g0], by simp [g0], claim_C7_sha256_layout bn g0 (by simp [g0]) (by simp [g0])⟩

/-! ## The R1CS row conversion -/

theorem foldlAdd_isAdd (p : ℕ) :
    ∀ (l : List (FlatExpression p)) (a b : FlatExpression p),
      ∃ a2 b2, l.foldl FlatExpression.Add (.Add a b) = .Add a2 b2 := by
  intro l
  induction l with
  | nil => intro a b; exact ⟨a, b, rfl⟩
  | cons x t ih => intro a b; exact ih (.Add a b) x

/-- C9: converting a coefficient vector with exactly one term yields
`Add(Number 0, Mult(coefficient, variable))`, and more generally every
non-empty converted coefficient vector is an `Add` node at the top level,
as the R1CS serializer requires. -/
theorem claim_C9_add_wrapping (p : ℕ) (k : ℕ) (c : F p) (v : List (ℕ × F p))
    (hv : v ≠ []) :
    flatExprFromVec p [(k, c)] =
        .Add (.Number 0) (.Mult (.Number c) (.Identifier (vNew k))) ∧
      ∃ a b, flatExprFromVec p v = .Add a b := by
  refine ⟨rfl, ?_⟩
  match v with
  | [] => exact absurd rfl hv
  | [t] =>
    exact ⟨.Number 0, .Mult (.Number t.2) (.Identifier (vNew t.1)), rfl⟩
  | t1 :: t2 :: rest =>
    obtain ⟨a2, b2, hab⟩ := foldlAdd_isAdd p
      (rest.map fun t => FlatExpression.Mult (.Number t.2) (.Identifier (vNew t.1)))
      (.Mult (.Number t1.2) (.Identifier (vNew t1.1)))
      (.Mult (.Number t2.2) (.Identifier (vNew t2.1)))
    refine ⟨a2, b2, ?_⟩
    show (match
        (rest.map fun t =>
          FlatExpression.Mult (.Number t.2) (.Identifier (vNew t.1))).foldl
          FlatExpression.Add
          (.Add (.Mult (.Number t1.2) (.Identifier (vNew t1.1)))
            (.Mult (.Number t2.2) (.Identifier (vNew t2.1)))) with
      | .Mult a b => FlatExpression.Add (.Number 0) (.Mult a b)
      | e2 => e2) = FlatExpression.Add a2 b2
    rw [hab]

/-- C9 (witness): the wrapping theorem at a concrete two-term vector over
`F 7`. -/
theorem claim_C9_witness :
    ([((1 : ℕ), (2 : F 7)), (3, 4)] : List (ℕ × F 7)) ≠ [] ∧
      (flatExprFromVec 7 [(5, 6)] =
          .Add (.Number 0) (.Mult (.Number 6) (.Identifier (vNew 5))) ∧
        ∃ a b, flatExprFromVec 7 [(1, 2), (3, 4)] = .Add a b) :=
  ⟨by decide, claim_C9_add_wrapping 7 5 6 [(1, 2), (3, 4)] (by decide)⟩

/-- C10: converting an empty R1CS coefficient vector yields the constant
literal `Number 0` (not an `Add` node), and for a translated gadget
constraint whose `a` row is empty the corresponding factor of the emitted
`Condition` is exactly this constant zero. -/
theorem claim_C10_empty_row (p : ℕ) (b c : List (ℕ × F p)) :
    flatExprFromVec p ([] : List (ℕ × F p)) = .Number 0 ∧
      bellmanStmt p ⟨[], b, c⟩ =
        .Condition (flatExprFromVec p c) (.Mult (.Number 0) (flatExprFromVec p b)) :=
  ⟨rfl, rfl⟩

end ZK
